import Mathlib

/-!
Verification of the invite lifecycle core of the invitation service.

The development shallowly embeds the three components of the service:
the persistent invite store (`src/database.ts`, backed here by a list of
rows plus an autoincrement counter), the chain oracle adapter
(`contract.ts`, `checkInviteOnChain`), and the three HTTP route handlers
(`routes/invites.ts`: `addInvite`, `getInvite`, `checkInvite`).

SQLite datetime timestamps are modelled as natural numbers
passed in as a `now` argument; the external JSON-RPC transport is
modelled by an `OracleOutcome` describing what a single `eth_call`
attempt produced (an exception, an empty result, or decodable data);
route handlers additionally report how many oracle calls they made.
-/

namespace InvitationService

/-- Invite lifecycle status, from `src/types.ts` (`InviteStatus`). -/
inductive InviteStatus where
  | none
  | pending
  | used
deriving DecidableEq, Repr

/-- A row of the `invites` table, from `src/types.ts` (`Invite`).
`updateDate` is a timestamp modelled as a natural number. -/
structure Invite where
  id : Nat
  secret : String
  signer : String
  status : InviteStatus
  updateDate : Nat
deriving DecidableEq, Repr

/-- The persisted store: the `invites` table rows in insertion (rowid)
order plus the AUTOINCREMENT counter for the next id. -/
structure Store where
  invites : List Invite
  nextId : Nat
deriving DecidableEq, Repr

/-- Result of the `accounts(address)` contract view, from `contract.ts`. -/
structure ChainData where
  account : String
  claimed : Bool
deriving DecidableEq, Repr

/-- What a single underlying `eth_call` attempt produced, as seen by
`checkInviteOnChain`: the transport raised, the call succeeded with no
data, ABI decoding raised, or a decoded `(account, claimed)` pair. -/
inductive OracleOutcome where
  | callError
  | noData
  | decodeError
  | decoded (account : String) (claimed : Bool)
deriving DecidableEq, Repr

/-- The callError and decodeError outcomes correspond to an exception
raised by the underlying call (network failure, revert, malformed
response). -/
def OracleOutcome.isFailure : OracleOutcome → Bool
  | callError => true
  | decodeError => true
  | noData => false
  | decoded _ _ => false

def zeroAddress : String := "0x0000000000000000000000000000000000000000"

def zeroChainData : ChainData := ⟨zeroAddress, false⟩

/-- `checkInviteOnChain` from `contract.ts`: the whole body sits in a
try/catch whose catch returns the zero address and `claimed = false`;
an empty `result.data` takes the same value through an explicit branch;
otherwise the decoded pair is returned. -/
def checkInviteOnChain : OracleOutcome → ChainData
  | .callError => zeroChainData
  | .noData => zeroChainData
  | .decodeError => zeroChainData
  | .decoded a c => ⟨a, c⟩

/-- `checkInviteOnChain` run against a stream of transport outcomes
(attempt number ↦ outcome): the source performs exactly one
`client.call` attempt, so only attempt 0 is consumed. -/
def checkInviteOnChainRun (trace : Nat → OracleOutcome) : ChainData :=
  checkInviteOnChain (trace 0)

/-- Store error raised by `INSERT`: the UNIQUE constraint on `secret`. -/
inductive DbError where
  | duplicateSecret
deriving DecidableEq, Repr

/-- `InviteDatabase.getInviteById`: `SELECT * FROM invites WHERE id = ?`
(the source throws when absent; absence is modelled as `none`). -/
def getInviteById (s : Store) (id : Nat) : Option Invite :=
  s.invites.find? (fun i => decide (i.id = id))

/-- `InviteDatabase.getInviteBySecret`:
`SELECT * FROM invites WHERE secret = ?`. -/
def getInviteBySecret (s : Store) (secret : String) : Option Invite :=
  s.invites.find? (fun i => decide (i.secret = secret))

/-- `InviteDatabase.addInvite`: `INSERT INTO invites ...` with the
UNIQUE constraint on `secret`; on success the freshly inserted row is
read back by `lastInsertRowid`. -/
def addInvite (s : Store) (secret signer : String) (now : Nat) :
    Except DbError (Invite × Store) :=
  if s.invites.any (fun i => decide (i.secret = secret)) then
    .error .duplicateSecret
  else
    let inv : Invite := ⟨s.nextId, secret, signer, .none, now⟩
    .ok (inv, ⟨s.invites ++ [inv], s.nextId + 1⟩)

/-- `InviteDatabase.updateInviteStatus`:
`UPDATE invites SET status and updateDate WHERE id = ?`. -/
def updateInviteStatus (s : Store) (id : Nat) (st : InviteStatus) (now : Nat) :
    Store :=
  ⟨s.invites.map (fun i =>
      if i.id = id then { i with status := st, updateDate := now } else i),
    s.nextId⟩

/-- `InviteDatabase.markInviteAsUsed`: look up by secret, then set the
status of the row to `used`; reports whether the secret was found. -/
def markInviteAsUsed (s : Store) (secret : String) (now : Nat) :
    Bool × Store :=
  match getInviteBySecret s secret with
  | some inv => (true, updateInviteStatus s inv.id .used now)
  | Option.none => (false, s)

/-- `SELECT ... ORDER BY key ASC LIMIT 1` over a list of rows already in
rowid order: the first row attaining the minimal key. -/
def minByKey (key : Invite → Nat) : List Invite → Option Invite
  | [] => Option.none
  | i :: is =>
    Option.some (is.foldl (fun acc j => if key j < key acc then j else acc) i)

/-- `InviteDatabase.getNextInvite`: first the smallest-id row with
status `none` (which is flipped to `pending` and re-read), otherwise the
oldest-`updateDate` row with status `pending` (returned unchanged),
otherwise `null`. -/
def getNextInvite (s : Store) (now : Nat) : Option Invite × Store :=
  match minByKey (fun i => i.id)
      (s.invites.filter (fun i => decide (i.status = .none))) with
  | Option.some inv =>
    let s1 := updateInviteStatus s inv.id .pending now
    (getInviteById s1 inv.id, s1)
  | Option.none =>
    match minByKey (fun i => i.updateDate)
        (s.invites.filter (fun i => decide (i.status = .pending))) with
    | Option.some inv => (Option.some inv, s)
    | Option.none => (Option.none, s)

/-- Statistics record returned by `InviteDatabase.getInviteStats`. -/
structure InviteStats where
  total : Nat
  used : Nat
  pending : Nat
  available : Nat
deriving DecidableEq, Repr

/-- `InviteDatabase.getInviteStats`: three COUNT queries plus
`available = total - used - pending`. -/
def getInviteStats (s : Store) : InviteStats :=
  let total := s.invites.length
  let used := (s.invites.filter (fun i => decide (i.status = .used))).length
  let pending :=
    (s.invites.filter (fun i => decide (i.status = .pending))).length
  ⟨total, used, pending, total - used - pending⟩

/-- The hex-string check of the `addInvite` route,
regex `^(0x)?[0-9a-fA-F]$` character class. -/
def isHexDig (c : Char) : Bool :=
  ('0' ≤ c && c ≤ '9') || ('a' ≤ c && c ≤ 'f') || ('A' ≤ c && c ≤ 'F')

/-- Drop a literal leading `0x`, as the optional `(0x)?` group does. -/
def stripHexMark : List Char → List Char
  | '0' :: 'x' :: rest => rest
  | cs => cs

/-- The secret check of the `addInvite` route: regex hex with optional 0x. -/
def isHexString (s : String) : Bool :=
  let t := stripHexMark s.toList
  !t.isEmpty && t.all isHexDig

/-- The address check of the `addInvite` route: 40 hex chars with
optional 0x. -/
def isEthAddress (s : String) : Bool :=
  let t := stripHexMark s.toList
  t.length = 40 && t.all isHexDig

/-- Responses of the `addInvite` route handler. -/
inductive AddResponse where
  | badRequest
  | conflict
  | created (inv : Invite)
deriving DecidableEq, Repr

/-- The public `POST /addInvite` route handler: input validation, the
external secret/address correspondence check (`verify`, a collaborator
outside this core), the on-chain pre-checks, then the insert; a UNIQUE
violation is mapped to a 409 conflict. Returns the response and the
resulting store. -/
def addInviteRoute (s : Store) (now : Nat) (secret address : String)
    (verify : String → String → Bool) (oracle : String → OracleOutcome) :
    AddResponse × Store :=
  if secret = "" then (.badRequest, s)
  else if address = "" then (.badRequest, s)
  else if !isHexString secret then (.badRequest, s)
  else if !isEthAddress address then (.badRequest, s)
  else if !verify secret address then (.badRequest, s)
  else if (checkInviteOnChain (oracle address)).account = zeroAddress then
    (.badRequest, s)
  else if (checkInviteOnChain (oracle address)).claimed then (.badRequest, s)
  else
    match addInvite s secret address now with
    | .ok (inv, s1) => (.created inv, s1)
    | .error .duplicateSecret => (.conflict, s)

/-- Responses of the `GET /getInvite` route handler. -/
inductive DispenseResponse where
  | noAvailable
  | success (inv : Invite)
deriving DecidableEq, Repr

/-- The `GET /getInvite` route handler body, generic in what the awaited
oracle adapter call produced (`Except.error` models a thrown exception,
caught by the inner catch of the route, which returns the pending invite
anyway). Returns the response, the resulting store, and how many oracle
calls were made. -/
def getInviteFlow (s : Store) (now : Nat)
    (oracleCall : String → Except Unit ChainData) :
    DispenseResponse × Store × Nat :=
  match (getNextInvite s now).1 with
  | Option.none => (.noAvailable, (getNextInvite s now).2, 0)
  | Option.some inv =>
    if inv.status = .pending then
      match oracleCall inv.signer with
      | .ok chainData =>
        if chainData.claimed then
          match (getNextInvite
              ((markInviteAsUsed (getNextInvite s now).2 inv.secret now).2)
              now).1 with
          | Option.none =>
            (.noAvailable,
              (getNextInvite
                ((markInviteAsUsed (getNextInvite s now).2 inv.secret now).2)
                now).2, 1)
          | Option.some inv2 =>
            (.success inv2,
              (getNextInvite
                ((markInviteAsUsed (getNextInvite s now).2 inv.secret now).2)
                now).2, 1)
        else (.success inv, (getNextInvite s now).2, 1)
      | .error _ => (.success inv, (getNextInvite s now).2, 1)
    else (.success inv, (getNextInvite s now).2, 0)

/-- The `GET /getInvite` route handler with the actual adapter plugged
in: `checkInviteOnChain` never throws, so the call always yields a
value. -/
def getInviteRoute (s : Store) (now : Nat)
    (oracle : String → OracleOutcome) : DispenseResponse × Store × Nat :=
  getInviteFlow s now (fun addr => Except.ok (checkInviteOnChain (oracle addr)))

/-- Responses of the `POST /checkInvite` route handler. `oracleFailure`
is the 500 "Failed to verify invite status on-chain" branch;
`internalError` is the outer catch. -/
inductive CheckResponse where
  | badRequest
  | notFound
  | result (isUsed : Bool) (inv : Invite)
  | oracleFailure
  | internalError
deriving DecidableEq, Repr

/-- The `POST /checkInvite` route handler body, generic in what the
awaited oracle adapter call produced (`Except.error` models a thrown
exception, caught by the inner catch of the route, which returns the 500
`oracleFailure` response). Returns the response, the resulting store,
and how many oracle calls were made. -/
def checkInviteFlow (s : Store) (now : Nat) (secret address : String)
    (oracleCall : Except Unit ChainData) : CheckResponse × Store × Nat :=
  if secret = "" then (.badRequest, s, 0)
  else if address = "" then (.badRequest, s, 0)
  else
    match getInviteBySecret s secret with
    | Option.none => (.notFound, s, 0)
    | Option.some inv =>
      if inv.status = .used then (.result true inv, s, 0)
      else
        match oracleCall with
        | .error _ => (.oracleFailure, s, 1)
        | .ok chainData =>
          if chainData.claimed then
            match getInviteBySecret (markInviteAsUsed s secret now).2 secret with
            | Option.some updated =>
              (.result true { updated with status := .used },
                (markInviteAsUsed s secret now).2, 1)
            | Option.none =>
              (.internalError, (markInviteAsUsed s secret now).2, 1)
          else (.result false inv, s, 1)

/-- The `POST /checkInvite` route handler with the actual adapter
plugged in: the route queries the caller-supplied `address`. -/
def checkInviteRoute (s : Store) (now : Nat) (secret address : String)
    (oracle : String → OracleOutcome) : CheckResponse × Store × Nat :=
  checkInviteFlow s now secret address
    (Except.ok (checkInviteOnChain (oracle address)))

/-- Rank of a status in the `none → pending → used` order. -/
def statusRank : InviteStatus → Nat
  | .none => 0
  | .pending => 1
  | .used => 2

/-- The status of the row with the given id, if present. -/
def statusOf (s : Store) (id : Nat) : Option InviteStatus :=
  (getInviteById s id).map Invite.status

/-- Store well-formedness: row ids are pairwise distinct and below the
autoincrement counter (both hold for every store the SQLite
AUTOINCREMENT primary key produces). -/
def WF (s : Store) : Prop :=
  (s.invites.map Invite.id).Nodup ∧ ∀ i ∈ s.invites, i.id < s.nextId

instance (s : Store) : Decidable (WF s) := by
  unfold WF
  infer_instance

/-- One public operation of the service, with the external collaborators
it consults. -/
inductive Op where
  | issue (secret address : String) (verify : String → String → Bool)
      (oracle : String → OracleOutcome)
  | dispense (oracle : String → OracleOutcome)
  | check (secret address : String) (oracle : String → OracleOutcome)

/-- The store effect of one public operation performed at time `now`. -/
def applyOp (s : Store) (nowOp : Nat × Op) : Store :=
  match nowOp.2 with
  | .issue secret address verify oracle =>
    (addInviteRoute s nowOp.1 secret address verify oracle).2
  | .dispense oracle => (getInviteRoute s nowOp.1 oracle).2.1
  | .check secret address oracle =>
    (checkInviteRoute s nowOp.1 secret address oracle).2.1

/-- The store effect of a sequence of public operations. -/
def applyOps (s : Store) (ops : List (Nat × Op)) : Store :=
  ops.foldl applyOp s

/-- Whether a `checkInvite` response is the 500 "Failed to verify invite
status on-chain" hard failure. -/
def CheckResponse.isOracleFailure : CheckResponse → Bool
  | oracleFailure => true
  | _ => false

/-- Every row present in the first store is still present in the
second and its status
rank has not decreased. -/
def Mono (s s' : Store) : Prop :=
  ∀ id st, statusOf s id = Option.some st →
    ∃ st', statusOf s' id = Option.some st' ∧ statusRank st ≤ statusRank st'

/-! ### Helper lemmas about the store primitives -/

theorem foldl_min_mem (key : Invite → Nat) (is : List Invite) (i : Invite) :
    is.foldl (fun acc j => if key j < key acc then j else acc) i ∈ i :: is := by
  induction is generalizing i with
  | nil => simp
  | cons a t ih =>
    rw [List.foldl_cons]
    have h := ih (if key a < key i then a else i)
    rw [List.mem_cons] at h
    rcases h with h1 | h1
    · rw [h1]
      by_cases hk : key a < key i <;> simp [hk]
    · simp only [List.mem_cons]
      exact Or.inr (Or.inr h1)

theorem foldl_min_le (key : Invite → Nat) (is : List Invite) (i : Invite) :
    ∀ j ∈ i :: is,
      key (is.foldl (fun acc j => if key j < key acc then j else acc) i) ≤
        key j := by
  induction is generalizing i with
  | nil =>
    intro j hj
    rw [List.mem_singleton] at hj
    rw [hj]
    exact Nat.le_refl _
  | cons a t ih =>
    intro j hj
    rw [List.foldl_cons]
    have hfle : key (if key a < key i then a else i) ≤ key i ∧
        key (if key a < key i then a else i) ≤ key a := by
      by_cases hk : key a < key i
      · rw [if_pos hk]
        exact ⟨Nat.le_of_lt hk, Nat.le_refl _⟩
      · rw [if_neg hk]
        exact ⟨Nat.le_refl _, Nat.le_of_not_lt hk⟩
    have hr := ih (if key a < key i then a else i)
    have hrf := hr _ (List.mem_cons_self _ _)
    rcases List.mem_cons.mp hj with h1 | h1
    · rw [h1]
      exact Nat.le_trans hrf hfle.1
    rcases List.mem_cons.mp h1 with h2 | h2
    · rw [h2]
      exact Nat.le_trans hrf hfle.2
    · exact hr _ (List.mem_cons_of_mem _ h2)

theorem minByKey_mem {key : Invite → Nat} {l : List Invite} {m : Invite}
    (h : minByKey key l = Option.some m) : m ∈ l := by
  cases l with
  | nil => simp [minByKey] at h
  | cons i is =>
    simp only [minByKey, Option.some.injEq] at h
    rw [← h]
    exact foldl_min_mem key is i

theorem minByKey_le {key : Invite → Nat} {l : List Invite} {m : Invite}
    (h : minByKey key l = Option.some m) : ∀ j ∈ l, key m ≤ key j := by
  cases l with
  | nil => simp [minByKey] at h
  | cons i is =>
    simp only [minByKey, Option.some.injEq] at h
    rw [← h]
    exact foldl_min_le key is i

theorem minByKey_eq_none {key : Invite → Nat} {l : List Invite} :
    minByKey key l = Option.none ↔ l = [] := by
  cases l <;> simp [minByKey]

theorem minByKey_isSome {key : Invite → Nat} {l : List Invite} (h : l ≠ []) :
    ∃ m, minByKey key l = Option.some m := by
  cases l with
  | nil => exact absurd rfl h
  | cons i is => exact ⟨_, rfl⟩

theorem find?_key_nodup {κ : Type} [DecidableEq κ] (key : Invite → κ)
    {l : List Invite} (hnd : (l.map key).Nodup) {m : Invite} (hm : m ∈ l) :
    l.find? (fun i => decide (key i = key m)) = Option.some m := by
  induction l with
  | nil => simp at hm
  | cons a t ih =>
    rw [List.map_cons, List.nodup_cons] at hnd
    rcases List.mem_cons.mp hm with h1 | h1
    · rw [h1]
      exact List.find?_cons_of_pos _ (by simp)
    · by_cases hk : key a = key m
      · exact absurd (by rw [hk]; exact List.mem_map_of_mem key h1) hnd.1
      · rw [List.find?_cons_of_neg _ (by simp [hk])]
        exact ih hnd.2 h1

theorem getInviteById_of_nodup {s : Store}
    (hnd : (s.invites.map Invite.id).Nodup) {m : Invite}
    (hm : m ∈ s.invites) : getInviteById s m.id = Option.some m :=
  find?_key_nodup Invite.id hnd hm

theorem getInviteBySecret_of_nodup {s : Store}
    (hnd : (s.invites.map Invite.secret).Nodup) {m : Invite}
    (hm : m ∈ s.invites) : getInviteBySecret s m.secret = Option.some m :=
  find?_key_nodup Invite.secret hnd hm

theorem getInviteById_some {s : Store} {id : Nat} {inv : Invite}
    (h : getInviteById s id = Option.some inv) :
    inv ∈ s.invites ∧ inv.id = id := by
  unfold getInviteById at h
  refine ⟨List.mem_of_find?_eq_some h, ?_⟩
  have := List.find?_some h
  simpa using this

theorem getInviteBySecret_some {s : Store} {secret : String} {inv : Invite}
    (h : getInviteBySecret s secret = Option.some inv) :
    inv ∈ s.invites ∧ inv.secret = secret := by
  unfold getInviteBySecret at h
  refine ⟨List.mem_of_find?_eq_some h, ?_⟩
  have := List.find?_some h
  simpa using this

theorem getInviteById_update (s : Store) (tid : Nat) (st : InviteStatus)
    (now : Nat) (id : Nat) :
    getInviteById (updateInviteStatus s tid st now) id =
      (getInviteById s id).map (fun i =>
        if i.id = tid then { i with status := st, updateDate := now }
        else i) := by
  unfold getInviteById updateInviteStatus
  rw [List.find?_map]
  have hp : ((fun i => decide (i.id = id)) ∘ fun i =>
      if i.id = tid then { i with status := st, updateDate := now }
      else i) = fun i : Invite => decide (i.id = id) := by
    funext i
    by_cases h : i.id = tid <;> simp [h]
  rw [hp]

theorem getInviteBySecret_update (s : Store) (tid : Nat) (st : InviteStatus)
    (now : Nat) (secret : String) :
    getInviteBySecret (updateInviteStatus s tid st now) secret =
      (getInviteBySecret s secret).map (fun i =>
        if i.id = tid then { i with status := st, updateDate := now }
        else i) := by
  unfold getInviteBySecret updateInviteStatus
  rw [List.find?_map]
  have hp : ((fun i => decide (i.secret = secret)) ∘ fun i =>
      if i.id = tid then { i with status := st, updateDate := now }
      else i) = fun i : Invite => decide (i.secret = secret) := by
    funext i
    by_cases h : i.id = tid <;> simp [h]
  rw [hp]

theorem statusOf_update (s : Store) (tid : Nat) (st : InviteStatus)
    (now id : Nat) :
    statusOf (updateInviteStatus s tid st now) id =
      (statusOf s id).map (fun old => if id = tid then st else old) := by
  unfold statusOf
  rw [getInviteById_update]
  cases h : getInviteById s id with
  | none => rfl
  | some inv =>
    have hid : inv.id = id := (getInviteById_some h).2
    simp only [Option.map_some']
    rw [hid]
    by_cases hi : id = tid <;> simp [hi]

/-! ### Forward-only transitions: monotonicity machinery -/

theorem Mono.rfl (s : Store) : Mono s s :=
  fun _ st h => ⟨st, h, Nat.le_refl _⟩

theorem Mono.trans {s1 s2 s3 : Store} (h12 : Mono s1 s2) (h23 : Mono s2 s3) :
    Mono s1 s3 := by
  intro id st h
  obtain ⟨st2, h2, hr2⟩ := h12 id st h
  obtain ⟨st3, h3, hr3⟩ := h23 id st2 h2
  exact ⟨st3, h3, Nat.le_trans hr2 hr3⟩

theorem mono_update_used (s : Store) (tid now : Nat) :
    Mono s (updateInviteStatus s tid .used now) := by
  intro id st h
  rw [statusOf_update, h]
  refine ⟨_, rfl, ?_⟩
  show statusRank st ≤ statusRank (if id = tid then .used else st)
  by_cases hi : id = tid
  · rw [if_pos hi]
    cases st <;> simp [statusRank]
  · rw [if_neg hi]

theorem mono_update_pending (s : Store) (tid now : Nat)
    (h0 : statusOf s tid = Option.some .none) :
    Mono s (updateInviteStatus s tid .pending now) := by
  intro id st h
  rw [statusOf_update, h]
  refine ⟨_, rfl, ?_⟩
  show statusRank st ≤ statusRank (if id = tid then .pending else st)
  by_cases hi : id = tid
  · rw [if_pos hi]
    rw [hi, h0] at h
    have hst : st = .none := by
      injection h with h1
      exact h1.symm
    rw [hst]
    simp [statusRank]
  · rw [if_neg hi]

theorem wf_update (s : Store) (tid : Nat) (st : InviteStatus) (now : Nat)
    (hwf : WF s) : WF (updateInviteStatus s tid st now) := by
  have hids : (updateInviteStatus s tid st now).invites.map Invite.id =
      s.invites.map Invite.id := by
    unfold updateInviteStatus
    rw [List.map_map]
    congr 1
    funext i
    by_cases h : i.id = tid <;> simp [h]
  constructor
  · rw [hids]
    exact hwf.1
  · intro i hi
    unfold updateInviteStatus at hi
    rw [List.mem_map] at hi
    obtain ⟨j, hj, hji⟩ := hi
    have hb := hwf.2 j hj
    rw [← hji]
    by_cases h : j.id = tid
    · rw [if_pos h]
      exact hb
    · rw [if_neg h]
      exact hb

theorem mono_markUsed (s : Store) (secret : String) (now : Nat) :
    Mono s (markInviteAsUsed s secret now).2 := by
  unfold markInviteAsUsed
  cases getInviteBySecret s secret with
  | none => exact Mono.rfl s
  | some inv => exact mono_update_used s inv.id now

theorem wf_markUsed (s : Store) (secret : String) (now : Nat) (hwf : WF s) :
    WF (markInviteAsUsed s secret now).2 := by
  unfold markInviteAsUsed
  cases getInviteBySecret s secret with
  | none => exact hwf
  | some inv => exact wf_update s inv.id .used now hwf

theorem mono_getNextInvite (s : Store) (now : Nat) (hwf : WF s) :
    Mono s (getNextInvite s now).2 := by
  unfold getNextInvite
  cases hmin : minByKey (fun i => i.id)
      (s.invites.filter fun i => decide (i.status = .none)) with
  | none =>
    cases minByKey (fun i => i.updateDate)
        (s.invites.filter fun i => decide (i.status = .pending)) with
    | none => exact Mono.rfl s
    | some _ => exact Mono.rfl s
  | some m =>
    apply mono_update_pending
    have hm := minByKey_mem hmin
    rw [List.mem_filter] at hm
    unfold statusOf
    rw [getInviteById_of_nodup hwf.1 hm.1]
    have hst : m.status = .none := by simpa using hm.2
    simp [hst]

theorem wf_getNextInvite (s : Store) (now : Nat) (hwf : WF s) :
    WF (getNextInvite s now).2 := by
  unfold getNextInvite
  cases minByKey (fun i => i.id)
      (s.invites.filter fun i => decide (i.status = .none)) with
  | none =>
    cases minByKey (fun i => i.updateDate)
        (s.invites.filter fun i => decide (i.status = .pending)) with
    | none => exact hwf
    | some _ => exact hwf
  | some m => exact wf_update s m.id .pending now hwf

theorem addInvite_ok {s : Store} {secret signer : String} {now : Nat}
    {inv : Invite} {s1 : Store}
    (h : addInvite s secret signer now = .ok (inv, s1)) :
    inv = ⟨s.nextId, secret, signer, .none, now⟩ ∧
      s1 = ⟨s.invites ++ [inv], s.nextId + 1⟩ := by
  unfold addInvite at h
  split at h
  · cases h
  · injection h with h1
    injection h1 with h2 h3
    exact ⟨h2.symm, by rw [← h3, h2]⟩

theorem statusOf_append (s : Store) (inv : Invite) (n : Nat) (id : Nat)
    (st : InviteStatus) (h : statusOf s id = Option.some st) :
    statusOf (⟨s.invites ++ [inv], n⟩ : Store) id = Option.some st := by
  unfold statusOf getInviteById at *
  rw [List.find?_append]
  cases hf : List.find? (fun i => decide (i.id = id)) s.invites with
  | none => simp [hf] at h
  | some j =>
    rw [hf] at h
    exact h

theorem wf_addInvite_ok {s : Store} {secret signer : String} {now : Nat}
    {inv : Invite} {s1 : Store}
    (h : addInvite s secret signer now = .ok (inv, s1)) (hwf : WF s) :
    WF s1 := by
  obtain ⟨hinv, hs1⟩ := addInvite_ok h
  rw [hs1]
  constructor
  · rw [List.map_append]
    refine List.Nodup.append hwf.1 (List.nodup_singleton _) ?_
    intro a ha hb
    rw [List.mem_map] at ha
    obtain ⟨j, hj, hja⟩ := ha
    have := hwf.2 j hj
    rw [hinv] at hb
    simp at hb
    omega
  · intro i hi
    rw [List.mem_append] at hi
    show i.id < s.nextId + 1
    rcases hi with hi | hi
    · have := hwf.2 i hi
      omega
    · rw [List.mem_singleton] at hi
      rw [hi, hinv]
      show s.nextId < s.nextId + 1
      omega

/-- Every store the `addInvite` route can leave behind: either the
input store (validation failure, non-duplicate checks, or a UNIQUE
violation) or a successful insert. -/
theorem addInviteRoute_store (s : Store) (now : Nat)
    (secret address : String) (verify : String → String → Bool)
    (oracle : String → OracleOutcome) :
    (addInviteRoute s now secret address verify oracle).2 = s ∨
      ∃ inv s1, addInvite s secret address now = .ok (inv, s1) ∧
        (addInviteRoute s now secret address verify oracle).2 = s1 := by
  unfold addInviteRoute
  repeat'
    first
    | exact Or.inl rfl
    | split
  next inv s1 heq => exact Or.inr ⟨inv, s1, heq, rfl⟩

/-- Every store the `getInvite` route can leave behind: the store after
the first `getNextInvite`, or additionally after marking the selected
invite used and running `getNextInvite` a second time. -/
theorem getInviteFlow_store (s : Store) (now : Nat)
    (oracleCall : String → Except Unit ChainData) :
    (getInviteFlow s now oracleCall).2.1 = (getNextInvite s now).2 ∨
      ∃ sec, (getInviteFlow s now oracleCall).2.1 =
        (getNextInvite
          ((markInviteAsUsed (getNextInvite s now).2 sec now).2)
          now).2 := by
  unfold getInviteFlow
  repeat'
    first
    | exact Or.inl rfl
    | exact Or.inr ⟨_, rfl⟩
    | split

/-- Every store the `checkInvite` route can leave behind: the input
store, or the store after marking the looked-up invite used. -/
theorem checkInviteFlow_store (s : Store) (now : Nat)
    (secret address : String) (oracleCall : Except Unit ChainData) :
    (checkInviteFlow s now secret address oracleCall).2.1 = s ∨
      (checkInviteFlow s now secret address oracleCall).2.1 =
        (markInviteAsUsed s secret now).2 := by
  unfold checkInviteFlow
  repeat'
    first
    | exact Or.inl rfl
    | exact Or.inr rfl
    | split

theorem mono_applyOp (s : Store) (nowOp : Nat × Op) (hwf : WF s) :
    Mono s (applyOp s nowOp) ∧ WF (applyOp s nowOp) := by
  rcases nowOp with ⟨now, op⟩
  cases op with
  | issue secret address verify oracle =>
    show Mono s (addInviteRoute s now secret address verify oracle).2 ∧
      WF (addInviteRoute s now secret address verify oracle).2
    rcases addInviteRoute_store s now secret address verify oracle with
      h | ⟨inv, s1, haddr, h⟩
    · rw [h]
      exact ⟨Mono.rfl s, hwf⟩
    · rw [h]
      obtain ⟨hinv, hs1⟩ := addInvite_ok haddr
      refine ⟨?_, wf_addInvite_ok haddr hwf⟩
      intro id st hst
      refine ⟨st, ?_, Nat.le_refl _⟩
      rw [hs1]
      exact statusOf_append s inv (s.nextId + 1) id st hst
  | dispense oracle =>
    show Mono s (getInviteRoute s now oracle).2.1 ∧
      WF (getInviteRoute s now oracle).2.1
    unfold getInviteRoute
    rcases getInviteFlow_store s now
        (fun addr => Except.ok (checkInviteOnChain (oracle addr))) with
      h | ⟨sec, h⟩
    · rw [h]
      exact ⟨mono_getNextInvite s now hwf, wf_getNextInvite s now hwf⟩
    · rw [h]
      have hw1 := wf_getNextInvite s now hwf
      have hw2 := wf_markUsed (getNextInvite s now).2 sec now hw1
      refine ⟨?_, wf_getNextInvite _ now hw2⟩
      exact Mono.trans (mono_getNextInvite s now hwf)
        (Mono.trans (mono_markUsed (getNextInvite s now).2 sec now)
          (mono_getNextInvite _ now hw2))
  | check secret address oracle =>
    show Mono s (checkInviteRoute s now secret address oracle).2.1 ∧
      WF (checkInviteRoute s now secret address oracle).2.1
    unfold checkInviteRoute
    rcases checkInviteFlow_store s now secret address
        (Except.ok (checkInviteOnChain (oracle address))) with h | h
    · rw [h]
      exact ⟨Mono.rfl s, hwf⟩
    · rw [h]
      exact ⟨mono_markUsed s secret now, wf_markUsed s secret now hwf⟩

theorem mono_applyOps (s : Store) (ops : List (Nat × Op)) (hwf : WF s) :
    Mono s (applyOps s ops) ∧ WF (applyOps s ops) := by
  induction ops generalizing s with
  | nil => exact ⟨Mono.rfl s, hwf⟩
  | cons a t ih =>
    have h := mono_applyOp s a hwf
    have h2 := ih (applyOp s a) h.2
    exact ⟨Mono.trans h.1 h2.1, h2.2⟩

theorem exists_second {l : List Invite} {p : Invite} (hnd : l.Nodup)
    (hp : p ∈ l) (hlen : 2 ≤ l.length) : ∃ r ∈ l, r ≠ p := by
  cases l with
  | nil => simp at hp
  | cons a t =>
    by_cases hap : a = p
    · cases t with
      | nil => simp at hlen
      | cons b t2 =>
        refine ⟨b, by simp, ?_⟩
        rw [List.nodup_cons] at hnd
        intro hbp
        rw [← hap] at hbp
        exact hnd.1 (hbp ▸ List.mem_cons_self b t2)
    · exact ⟨a, List.mem_cons_self a t, fun h => hap h⟩

theorem key_inj_of_nodup {κ : Type} (key : Invite → κ) {l : List Invite}
    (hnd : (l.map key).Nodup) {a b : Invite} (ha : a ∈ l) (hb : b ∈ l)
    (hab : a ≠ b) : key a ≠ key b := by
  induction l with
  | nil => simp at ha
  | cons c t ih =>
    rw [List.map_cons, List.nodup_cons] at hnd
    rcases List.mem_cons.mp ha with h1 | h1
    · rcases List.mem_cons.mp hb with h2 | h2
      · exact absurd (h1.trans h2.symm) hab
      · rw [h1]
        intro he
        exact hnd.1 (he ▸ List.mem_map_of_mem key h2)
    · rcases List.mem_cons.mp hb with h2 | h2
      · rw [h2]
        intro he
        exact hnd.1 (he.symm ▸ List.mem_map_of_mem key h1)
      · exact ih hnd.2 h1 h2

/-! ### Claim theorems -/

/-- C8: the record returned by `getInviteStats` satisfies
`total = used + pending + available`, and `available` equals the number
of invites whose status is `none`. -/
theorem c8_stats_identity (s : Store) :
    (getInviteStats s).total =
      (getInviteStats s).used + (getInviteStats s).pending +
        (getInviteStats s).available ∧
    (getInviteStats s).available =
      (s.invites.filter (fun i => decide (i.status = .none))).length := by
  have hsplit : s.invites.length =
      (s.invites.filter (fun i => decide (i.status = .used))).length +
        (s.invites.filter (fun i => decide (i.status = .pending))).length +
        (s.invites.filter (fun i => decide (i.status = .none))).length := by
    induction s.invites with
    | nil => rfl
    | cons a t ih =>
      cases ha : a.status <;> simp [List.filter_cons, ha] <;> omega
  simp only [getInviteStats]
  exact ⟨by omega, by omega⟩

/-- C6: if the single `eth_call` attempt fails (exception) or returns no
data, `checkInviteOnChain` returns exactly the zero address with
`claimed = false`; and the adapter consults only the first attempt of
the transport trace (no retry). -/
theorem c6_adapter_fail_open (trace : Nat → OracleOutcome)
    (h : (trace 0).isFailure = true ∨ trace 0 = OracleOutcome.noData) :
    checkInviteOnChainRun trace = zeroChainData ∧
      ∀ t2 : Nat → OracleOutcome, t2 0 = trace 0 →
        checkInviteOnChainRun t2 = checkInviteOnChainRun trace := by
  constructor
  · unfold checkInviteOnChainRun
    cases ht : trace 0 with
    | callError => rfl
    | noData => rfl
    | decodeError => rfl
    | decoded a c =>
      rcases h with h | h
      · rw [ht] at h
        simp [OracleOutcome.isFailure] at h
      · rw [ht] at h
        cases h
  · intro t2 h2
    unfold checkInviteOnChainRun
    rw [h2]

/-- Witness for C6 at the constant transport-error trace. -/
theorem c6_adapter_fail_open_witness :
    (((fun _ : Nat => OracleOutcome.callError) 0).isFailure = true ∨
      (fun _ : Nat => OracleOutcome.callError) 0 = OracleOutcome.noData) ∧
    checkInviteOnChainRun (fun _ => OracleOutcome.callError) =
      zeroChainData :=
  ⟨Or.inl rfl,
    (c6_adapter_fail_open (fun _ => OracleOutcome.callError) (Or.inl rfl)).1⟩

/-- C10: the adapter catches every failure internally, so the
hard-failure branch of the `checkInvite` route (500 "Failed to verify invite
status on-chain") is unreachable: no input ever produces the
`oracleFailure` response. -/
theorem c10_oracle_failure_unreachable (s : Store) (now : Nat)
    (secret address : String) (oracle : String → OracleOutcome) :
    ((checkInviteRoute s now secret address oracle).1).isOracleFailure =
      false := by
  unfold checkInviteRoute checkInviteFlow
  repeat'
    first
    | rfl
    | contradiction
    | split

/-- C4: across any sequence of public operations (issue, dispense,
checkInvite), an invite's status rank never decreases
(`none → pending → used` is forward-only) and `used` is terminal. -/
theorem c4_forward_only (s : Store) (ops : List (Nat × Op)) (id : Nat)
    (st st' : InviteStatus) (hwf : WF s)
    (h1 : statusOf s id = Option.some st)
    (h2 : statusOf (applyOps s ops) id = Option.some st') :
    statusRank st ≤ statusRank st' ∧ (st = .used → st' = .used) := by
  obtain ⟨st2, h3, hrank⟩ := (mono_applyOps s ops hwf).1 id st h1
  rw [h2] at h3
  injection h3 with h4
  rw [← h4] at hrank
  refine ⟨hrank, ?_⟩
  intro hu
  rw [hu] at hrank
  cases st' with
  | none => simp [statusRank] at hrank
  | pending => simp [statusRank] at hrank
  | used => rfl

/-- Witness for C4: a store with a used invite, subjected to a
checkInvite operation whose oracle claims everything. -/
theorem c4_forward_only_witness :
    WF ⟨[⟨1, "aa", "s1", .used, 5⟩], 2⟩ ∧
    statusOf ⟨[⟨1, "aa", "s1", .used, 5⟩], 2⟩ 1 = Option.some .used ∧
    statusOf (applyOps ⟨[⟨1, "aa", "s1", .used, 5⟩], 2⟩
        [(7, Op.check "aa" "0xb" (fun _ => OracleOutcome.decoded "0xc" true))])
        1 = Option.some .used ∧
    (statusRank .used ≤ statusRank .used ∧
      (InviteStatus.used = .used → InviteStatus.used = .used)) :=
  ⟨by decide, by decide, by decide,
    c4_forward_only ⟨[⟨1, "aa", "s1", .used, 5⟩], 2⟩
      [(7, Op.check "aa" "0xb" (fun _ => OracleOutcome.decoded "0xc" true))]
      1 .used .used (by decide) (by decide) (by decide)⟩

/-- C7: if the looked-up invite is already `used` locally, `checkInvite`
returns `isUsed = true` immediately, makes no oracle call (call count
0), and leaves the store untouched. -/
theorem c7_used_short_circuits (s : Store) (now : Nat)
    (secret address : String) (oracle : String → OracleOutcome)
    (inv : Invite) (hs : secret ≠ "") (ha : address ≠ "")
    (hfind : getInviteBySecret s secret = Option.some inv)
    (hused : inv.status = .used) :
    checkInviteRoute s now secret address oracle =
      (CheckResponse.result true inv, s, 0) := by
  unfold checkInviteRoute checkInviteFlow
  simp only [if_neg hs, if_neg ha, hfind, if_pos hused]

/-- Witness for C7 on a one-invite store. -/
theorem c7_used_short_circuits_witness :
    ("aa" ≠ "" ∧ "0xb" ≠ "" ∧
      getInviteBySecret ⟨[⟨1, "aa", "s1", .used, 5⟩], 2⟩ "aa" =
        Option.some ⟨1, "aa", "s1", .used, 5⟩ ∧
      (⟨1, "aa", "s1", InviteStatus.used, 5⟩ : Invite).status = .used) ∧
    checkInviteRoute ⟨[⟨1, "aa", "s1", .used, 5⟩], 2⟩ 9 "aa" "0xb"
        (fun _ => OracleOutcome.decoded "0xc" true) =
      (CheckResponse.result true ⟨1, "aa", "s1", .used, 5⟩,
        ⟨[⟨1, "aa", "s1", .used, 5⟩], 2⟩, 0) :=
  ⟨⟨by decide, by decide, by decide, by decide⟩,
    c7_used_short_circuits ⟨[⟨1, "aa", "s1", .used, 5⟩], 2⟩ 9 "aa" "0xb"
      (fun _ => OracleOutcome.decoded "0xc" true) ⟨1, "aa", "s1", .used, 5⟩
      (by decide) (by decide) (by decide) (by decide)⟩

/-- C1 (amended): when the underlying oracle call fails during
`checkInvite` on a locally non-used invite, the failure is absorbed
inside `checkInviteOnChain` (which reports `claimed = false`), so the
route replies `isUsed = false` and leaves the invite's stored status and
updateDate unchanged; the hard-failure branch is not taken. -/
theorem c1_amended_fail_open (s : Store) (now : Nat)
    (secret address : String) (oracle : String → OracleOutcome)
    (inv : Invite) (hs : secret ≠ "") (ha : address ≠ "")
    (hfind : getInviteBySecret s secret = Option.some inv)
    (hnotused : ¬inv.status = .used)
    (hfail : (oracle address).isFailure = true) :
    checkInviteRoute s now secret address oracle =
      (CheckResponse.result false inv, s, 1) := by
  have hcd : checkInviteOnChain (oracle address) = zeroChainData := by
    cases ho : oracle address with
    | callError => rfl
    | noData => rfl
    | decodeError => rfl
    | decoded a c =>
      rw [ho] at hfail
      simp [OracleOutcome.isFailure] at hfail
  unfold checkInviteRoute checkInviteFlow
  simp only [if_neg hs, if_neg ha, hfind, if_neg hnotused, hcd]
  rfl

/-- Witness for the amended C1 on a one-invite store with a failing
transport. -/
theorem c1_amended_fail_open_witness :
    ("aa" ≠ "" ∧ "0xb" ≠ "" ∧
      getInviteBySecret ⟨[⟨1, "aa", "s1", .pending, 10⟩], 2⟩ "aa" =
        Option.some ⟨1, "aa", "s1", .pending, 10⟩ ∧
      ¬(⟨1, "aa", "s1", InviteStatus.pending, 10⟩ : Invite).status = .used ∧
      ((fun _ : String => OracleOutcome.callError) "0xb").isFailure = true) ∧
    checkInviteRoute ⟨[⟨1, "aa", "s1", .pending, 10⟩], 2⟩ 50 "aa" "0xb"
        (fun _ => OracleOutcome.callError) =
      (CheckResponse.result false ⟨1, "aa", "s1", .pending, 10⟩,
        ⟨[⟨1, "aa", "s1", .pending, 10⟩], 2⟩, 1) :=
  ⟨⟨by decide, by decide, by decide, by decide, by decide⟩,
    c1_amended_fail_open ⟨[⟨1, "aa", "s1", .pending, 10⟩], 2⟩ 50 "aa" "0xb"
      (fun _ => OracleOutcome.callError) ⟨1, "aa", "s1", .pending, 10⟩
      (by decide) (by decide) (by decide) (by decide) (by decide)⟩

/-- Counterexample to C1 as stated: on a pending invite with a failing
oracle transport, `checkInvite` does NOT surface a hard failure — it
reports `isUsed = false` (store unchanged, one oracle call), and the
response is not the hard-failure response. -/
theorem c1_counterexample :
    OracleOutcome.isFailure
        ((fun _ : String => OracleOutcome.callError) "0xb") = true ∧
    checkInviteRoute ⟨[⟨1, "aa", "s1", .pending, 10⟩], 2⟩ 50 "aa" "0xb"
        (fun _ => OracleOutcome.callError) =
      (CheckResponse.result false ⟨1, "aa", "s1", .pending, 10⟩,
        ⟨[⟨1, "aa", "s1", .pending, 10⟩], 2⟩, 1) ∧
    ((checkInviteRoute ⟨[⟨1, "aa", "s1", .pending, 10⟩], 2⟩ 50 "aa" "0xb"
        (fun _ => OracleOutcome.callError)).1).isOracleFailure = false := by
  exact ⟨rfl, by decide, by decide⟩

/-- C9: `checkInvite` on an invite whose stored status is `none`, with
the oracle reporting `claimed = true` for the caller-supplied address,
marks the invite `used` directly — skipping `pending` — and reports
`isUsed = true`. -/
theorem c9_none_to_used (s : Store) (now : Nat) (secret address : String)
    (oracle : String → OracleOutcome) (inv : Invite)
    (hs : secret ≠ "") (ha : address ≠ "")
    (hfind : getInviteBySecret s secret = Option.some inv)
    (hnone : inv.status = .none)
    (hclaimed : (checkInviteOnChain (oracle address)).claimed = true) :
    checkInviteRoute s now secret address oracle =
      (CheckResponse.result true
          { inv with status := .used, updateDate := now },
        updateInviteStatus s inv.id .used now, 1) ∧
    statusOf (updateInviteStatus s inv.id .used now) inv.id =
      Option.some .used := by
  have hnotused : ¬inv.status = .used := by
    rw [hnone]
    intro hx
    cases hx
  have hmark : markInviteAsUsed s secret now =
      (true, updateInviteStatus s inv.id .used now) := by
    unfold markInviteAsUsed
    rw [hfind]
  have hupd : getInviteBySecret (updateInviteStatus s inv.id .used now)
      secret = Option.some { inv with status := .used, updateDate := now } := by
    rw [getInviteBySecret_update, hfind]
    simp
  have hmem := (getInviteBySecret_some hfind).1
  constructor
  · unfold checkInviteRoute checkInviteFlow
    simp only [if_neg hs, if_neg ha, hfind, if_neg hnotused,
      if_pos hclaimed, hmark, hupd]
  · unfold statusOf
    rw [getInviteById_update]
    cases hj : getInviteById s inv.id with
    | none =>
      exfalso
      unfold getInviteById at hj
      rw [List.find?_eq_none] at hj
      exact (hj inv hmem) (by simp)
    | some j =>
      have hjid : j.id = inv.id := (getInviteById_some hj).2
      simp [hjid]

/-- Witness for C9 on a one-invite store whose invite is `none`. -/
theorem c9_none_to_used_witness :
    ("aa" ≠ "" ∧ "0xb" ≠ "" ∧
      getInviteBySecret ⟨[⟨1, "aa", "s1", .none, 5⟩], 2⟩ "aa" =
        Option.some ⟨1, "aa", "s1", .none, 5⟩ ∧
      (⟨1, "aa", "s1", InviteStatus.none, 5⟩ : Invite).status = .none ∧
      (checkInviteOnChain
        ((fun _ : String => OracleOutcome.decoded "0xc" true) "0xb")).claimed =
        true) ∧
    (checkInviteRoute ⟨[⟨1, "aa", "s1", .none, 5⟩], 2⟩ 9 "aa" "0xb"
        (fun _ => OracleOutcome.decoded "0xc" true) =
      (CheckResponse.result true ⟨1, "aa", "s1", .used, 9⟩,
        ⟨[⟨1, "aa", "s1", .used, 9⟩], 2⟩, 1) ∧
      statusOf ⟨[⟨1, "aa", "s1", .used, 9⟩], 2⟩ 1 = Option.some .used) :=
  ⟨⟨by decide, by decide, by decide, by decide, by decide⟩,
    c9_none_to_used ⟨[⟨1, "aa", "s1", .none, 5⟩], 2⟩ 9 "aa" "0xb"
      (fun _ => OracleOutcome.decoded "0xc" true) ⟨1, "aa", "s1", .none, 5⟩
      (by decide) (by decide) (by decide) (by decide) (by decide)⟩

/-- C5: a create with an already-present secret fails with the
duplicate-secret error at the store level, leaves the store completely
unchanged, and — whenever the route reaches the insert — is surfaced as
a 409 conflict. -/
theorem c5_duplicate_secret (s : Store) (now : Nat)
    (secret signer address : String) (verify : String → String → Bool)
    (oracle : String → OracleOutcome) (inv : Invite)
    (hmem : inv ∈ s.invites) (hsec : inv.secret = secret) :
    addInvite s secret signer now = .error .duplicateSecret ∧
    (addInviteRoute s now secret address verify oracle).2 = s ∧
    ((secret ≠ "" ∧ address ≠ "" ∧ isHexString secret = true ∧
        isEthAddress address = true ∧ verify secret address = true ∧
        (checkInviteOnChain (oracle address)).account ≠ zeroAddress ∧
        (checkInviteOnChain (oracle address)).claimed = false) →
      (addInviteRoute s now secret address verify oracle).1 =
        AddResponse.conflict) := by
  have hdup : s.invites.any (fun i => decide (i.secret = secret)) = true := by
    rw [List.any_eq_true]
    exact ⟨inv, hmem, by simp [hsec]⟩
  have herr : ∀ sg, addInvite s secret sg now = .error .duplicateSecret := by
    intro sg
    unfold addInvite
    rw [if_pos hdup]
  refine ⟨herr signer, ?_, ?_⟩
  · rcases addInviteRoute_store s now secret address verify oracle with
      h | ⟨inv2, s1, heq, h⟩
    · exact h
    · rw [herr address] at heq
      cases heq
  · rintro ⟨h1, h2, h3, h4, h5, h6, h7⟩
    unfold addInviteRoute
    rw [if_neg h1, if_neg h2,
      if_neg (show ¬(!isHexString secret) = true by simp [h3]),
      if_neg (show ¬(!isEthAddress address) = true by simp [h4]),
      if_neg (show ¬(!verify secret address) = true by simp [h5]),
      if_neg h6,
      if_neg (show
        ¬(checkInviteOnChain (oracle address)).claimed = true by
          simp [h7])]
    simp only [herr address]

/-- Witness for C5: a duplicate create on a one-invite store, with a
verifier that accepts and an oracle that reports a live unclaimed
account. -/
theorem c5_duplicate_secret_witness :
    (⟨1, "aa", "s1", InviteStatus.none, 5⟩ : Invite) ∈
      (⟨[⟨1, "aa", "s1", .none, 5⟩], 2⟩ : Store).invites ∧
    (⟨1, "aa", "s1", InviteStatus.none, 5⟩ : Invite).secret = "aa" ∧
    (addInvite ⟨[⟨1, "aa", "s1", .none, 5⟩], 2⟩ "aa" "s2" 9 =
        .error .duplicateSecret ∧
      (addInviteRoute ⟨[⟨1, "aa", "s1", .none, 5⟩], 2⟩ 9 "aa"
          "00112233445566778899aabbccddeeff00112233" (fun _ _ => true)
          (fun _ => OracleOutcome.decoded "0xacc" false)).2 =
        ⟨[⟨1, "aa", "s1", .none, 5⟩], 2⟩ ∧
      (addInviteRoute ⟨[⟨1, "aa", "s1", .none, 5⟩], 2⟩ 9 "aa"
          "00112233445566778899aabbccddeeff00112233" (fun _ _ => true)
          (fun _ => OracleOutcome.decoded "0xacc" false)).1 =
        AddResponse.conflict) :=
  ⟨by decide, by decide,
    (c5_duplicate_secret ⟨[⟨1, "aa", "s1", .none, 5⟩], 2⟩ 9 "aa" "s2"
        "00112233445566778899aabbccddeeff00112233" (fun _ _ => true)
        (fun _ => OracleOutcome.decoded "0xacc" false)
        ⟨1, "aa", "s1", .none, 5⟩ (by decide) (by decide)).1,
    (c5_duplicate_secret ⟨[⟨1, "aa", "s1", .none, 5⟩], 2⟩ 9 "aa" "s2"
        "00112233445566778899aabbccddeeff00112233" (fun _ _ => true)
        (fun _ => OracleOutcome.decoded "0xacc" false)
        ⟨1, "aa", "s1", .none, 5⟩ (by decide) (by decide)).2.1,
    (c5_duplicate_secret ⟨[⟨1, "aa", "s1", .none, 5⟩], 2⟩ 9 "aa" "s2"
        "00112233445566778899aabbccddeeff00112233" (fun _ _ => true)
        (fun _ => OracleOutcome.decoded "0xacc" false)
        ⟨1, "aa", "s1", .none, 5⟩ (by decide) (by decide)).2.2
      (by refine ⟨by decide, by decide, by decide, by decide, by decide,
        by decide, by decide⟩)⟩

/-- C3: `getNextInvite` follows the dispense precedence: a `none`
invite of smallest id is flipped to `pending` and returned; otherwise
the `pending` invite with the oldest updateDate is returned with the
store untouched; otherwise no invite is available. A `none` invite is
always preferred over every `pending` one (the second branch needs all
invites non-`none`). -/
theorem c3_dispense_precedence (s : Store) (now : Nat)
    (hids : (s.invites.map Invite.id).Nodup) :
    ((∃ i ∈ s.invites, i.status = .none) →
      ∃ sel ∈ s.invites, sel.status = .none ∧
        (∀ j ∈ s.invites, j.status = .none → sel.id ≤ j.id) ∧
        getNextInvite s now =
          (Option.some { sel with status := .pending, updateDate := now },
            updateInviteStatus s sel.id .pending now)) ∧
    ((∀ i ∈ s.invites, i.status ≠ .none) →
      (∃ i ∈ s.invites, i.status = .pending) →
      ∃ sel ∈ s.invites, sel.status = .pending ∧
        (∀ j ∈ s.invites, j.status = .pending →
          sel.updateDate ≤ j.updateDate) ∧
        getNextInvite s now = (Option.some sel, s)) ∧
    ((∀ i ∈ s.invites, i.status ≠ .none ∧ i.status ≠ .pending) →
      getNextInvite s now = (Option.none, s)) := by
  refine ⟨?_, ?_, ?_⟩
  · rintro ⟨i, hi, hstat⟩
    have hne : s.invites.filter (fun i => decide (i.status = .none)) ≠ [] := by
      intro h0
      have hmem : i ∈ s.invites.filter (fun i => decide (i.status = .none)) :=
        List.mem_filter.mpr ⟨hi, by simp [hstat]⟩
      rw [h0] at hmem
      simp at hmem
    obtain ⟨m, hmin⟩ := minByKey_isSome hne
    have hmem0 := minByKey_mem hmin
    rw [List.mem_filter] at hmem0
    refine ⟨m, hmem0.1, by simpa using hmem0.2, ?_, ?_⟩
    · intro j hj hjstat
      exact minByKey_le hmin j (List.mem_filter.mpr ⟨hj, by simp [hjstat]⟩)
    · unfold getNextInvite
      simp only [hmin]
      rw [getInviteById_update, getInviteById_of_nodup hids hmem0.1]
      simp
  · intro hnone hpend
    obtain ⟨p, hp, hpstat⟩ := hpend
    have hfn : s.invites.filter (fun i => decide (i.status = .none)) = [] := by
      rw [List.filter_eq_nil_iff]
      intro a ha
      simp [hnone a ha]
    have hm1 : minByKey (fun i => i.id)
        (s.invites.filter fun i => decide (i.status = .none)) =
        Option.none := by
      rw [hfn]
      rfl
    have hneP : s.invites.filter (fun i => decide (i.status = .pending)) ≠
        [] := by
      intro h0
      have hmem : p ∈ s.invites.filter (fun i => decide (i.status = .pending)) :=
        List.mem_filter.mpr ⟨hp, by simp [hpstat]⟩
      rw [h0] at hmem
      simp at hmem
    obtain ⟨m, hminP⟩ := minByKey_isSome hneP
    have hmem0 := minByKey_mem hminP
    rw [List.mem_filter] at hmem0
    refine ⟨m, hmem0.1, by simpa using hmem0.2, ?_, ?_⟩
    · intro j hj hjstat
      exact minByKey_le hminP j (List.mem_filter.mpr ⟨hj, by simp [hjstat]⟩)
    · unfold getNextInvite
      simp only [hm1, hminP]
  · intro hboth
    have hfn : s.invites.filter (fun i => decide (i.status = .none)) = [] := by
      rw [List.filter_eq_nil_iff]
      intro a ha
      simp [(hboth a ha).1]
    have hfp : s.invites.filter (fun i => decide (i.status = .pending)) =
        [] := by
      rw [List.filter_eq_nil_iff]
      intro a ha
      simp [(hboth a ha).2]
    have hm1 : minByKey (fun i => i.id)
        (s.invites.filter fun i => decide (i.status = .none)) =
        Option.none := by
      rw [hfn]
      rfl
    have hm2 : minByKey (fun i => i.updateDate)
        (s.invites.filter fun i => decide (i.status = .pending)) =
        Option.none := by
      rw [hfp]
      rfl
    unfold getNextInvite
    simp only [hm1, hm2]

/-- Witness for C3 on a two-invite store (one `none`, one `pending`). -/
theorem c3_dispense_precedence_witness :
    ((⟨[⟨1, "aa", "s1", .none, 5⟩, ⟨2, "bb", "s2", .pending, 3⟩], 3⟩ :
        Store).invites.map Invite.id).Nodup ∧
    (((∃ i ∈ (⟨[⟨1, "aa", "s1", .none, 5⟩, ⟨2, "bb", "s2", .pending, 3⟩],
          3⟩ : Store).invites, i.status = .none) →
      ∃ sel ∈ (⟨[⟨1, "aa", "s1", .none, 5⟩, ⟨2, "bb", "s2", .pending, 3⟩],
          3⟩ : Store).invites, sel.status = .none ∧
        (∀ j ∈ (⟨[⟨1, "aa", "s1", .none, 5⟩, ⟨2, "bb", "s2", .pending, 3⟩],
            3⟩ : Store).invites, j.status = .none → sel.id ≤ j.id) ∧
        getNextInvite
            ⟨[⟨1, "aa", "s1", .none, 5⟩, ⟨2, "bb", "s2", .pending, 3⟩], 3⟩
            9 =
          (Option.some { sel with status := .pending, updateDate := 9 },
            updateInviteStatus
              ⟨[⟨1, "aa", "s1", .none, 5⟩, ⟨2, "bb", "s2", .pending, 3⟩], 3⟩
              sel.id .pending 9)) ∧
    ((∀ i ∈ (⟨[⟨1, "aa", "s1", .none, 5⟩, ⟨2, "bb", "s2", .pending, 3⟩],
          3⟩ : Store).invites, i.status ≠ .none) →
      (∃ i ∈ (⟨[⟨1, "aa", "s1", .none, 5⟩, ⟨2, "bb", "s2", .pending, 3⟩],
          3⟩ : Store).invites, i.status = .pending) →
      ∃ sel ∈ (⟨[⟨1, "aa", "s1", .none, 5⟩, ⟨2, "bb", "s2", .pending, 3⟩],
          3⟩ : Store).invites, sel.status = .pending ∧
        (∀ j ∈ (⟨[⟨1, "aa", "s1", .none, 5⟩, ⟨2, "bb", "s2", .pending, 3⟩],
            3⟩ : Store).invites, j.status = .pending →
          sel.updateDate ≤ j.updateDate) ∧
        getNextInvite
            ⟨[⟨1, "aa", "s1", .none, 5⟩, ⟨2, "bb", "s2", .pending, 3⟩], 3⟩
            9 =
          (Option.some sel,
            ⟨[⟨1, "aa", "s1", .none, 5⟩, ⟨2, "bb", "s2", .pending, 3⟩],
              3⟩)) ∧
    ((∀ i ∈ (⟨[⟨1, "aa", "s1", .none, 5⟩, ⟨2, "bb", "s2", .pending, 3⟩],
          3⟩ : Store).invites, i.status ≠ .none ∧ i.status ≠ .pending) →
      getNextInvite
          ⟨[⟨1, "aa", "s1", .none, 5⟩, ⟨2, "bb", "s2", .pending, 3⟩], 3⟩
          9 =
        (Option.none,
          ⟨[⟨1, "aa", "s1", .none, 5⟩, ⟨2, "bb", "s2", .pending, 3⟩],
            3⟩))) :=
  ⟨by decide,
    c3_dispense_precedence
      ⟨[⟨1, "aa", "s1", .none, 5⟩, ⟨2, "bb", "s2", .pending, 3⟩], 3⟩ 9
      (by decide)⟩

theorem mem_update_of_ne {s : Store} {tid : Nat} {st : InviteStatus}
    {now : Nat} {r : Invite} (hr : r ∈ s.invites) (hne : r.id ≠ tid) :
    r ∈ (updateInviteStatus s tid st now).invites := by
  unfold updateInviteStatus
  rw [List.mem_map]
  exact ⟨r, hr, by rw [if_neg hne]⟩

theorem mem_update_pending_src {s : Store} {tid now : Nat} {i : Invite}
    (hi : i ∈ (updateInviteStatus s tid .used now).invites)
    (hstat : i.status = .pending) : i ∈ s.invites ∧ i.id ≠ tid := by
  unfold updateInviteStatus at hi
  rw [List.mem_map] at hi
  obtain ⟨j, hj, hji⟩ := hi
  by_cases h : j.id = tid
  · rw [if_pos h] at hji
    rw [← hji] at hstat
    simp at hstat
  · rw [if_neg h] at hji
    rw [← hji]
    exact ⟨hj, h⟩

theorem none_free_update_used {s : Store} {tid now : Nat}
    (h : ∀ i ∈ s.invites, i.status ≠ .none) :
    ∀ i ∈ (updateInviteStatus s tid .used now).invites,
      i.status ≠ .none := by
  intro i hi
  unfold updateInviteStatus at hi
  rw [List.mem_map] at hi
  obtain ⟨j, hj, hji⟩ := hi
  by_cases hcase : j.id = tid
  · rw [if_pos hcase] at hji
    rw [← hji]
    simp
  · rw [if_neg hcase] at hji
    rw [← hji]
    exact h j hj

/-- Counterexample to C2 as stated: with two pending invites and an
oracle that reports every signer claimed, dispense marks the first
(oldest) pending invite used, then returns the second pending invite
as-is — without reconciling it against the oracle (one single oracle
call), leaving it `pending` even though the oracle would report it
claimed too. -/
theorem c2_counterexample :
    (checkInviteOnChain
        ((fun _ : String => OracleOutcome.decoded "0xa" true) "s2")).claimed =
      true ∧
    getInviteRoute
        ⟨[⟨1, "aa", "s1", .pending, 10⟩, ⟨2, "bb", "s2", .pending, 20⟩], 3⟩
        100 (fun _ => OracleOutcome.decoded "0xa" true) =
      (DispenseResponse.success ⟨2, "bb", "s2", .pending, 20⟩,
        ⟨[⟨1, "aa", "s1", .used, 100⟩, ⟨2, "bb", "s2", .pending, 20⟩], 3⟩,
        1) ∧
    statusOf
        ⟨[⟨1, "aa", "s1", .used, 100⟩, ⟨2, "bb", "s2", .pending, 20⟩], 3⟩
        2 = Option.some .pending :=
  ⟨by decide, by decide, by decide⟩

/-- C2 (amended): when the selected oldest pending invite is reported
claimed, dispense marks it `used` and performs one single additional
`getNextInvite` query, returning the next-oldest pending invite without
reconciling that replacement against the oracle (exactly one oracle
call per request); in particular the replacement is still `pending`
afterwards. -/
theorem c2_amended_single_skip (s : Store) (now : Nat)
    (oracle : String → OracleOutcome) (p : Invite)
    (hids : (s.invites.map Invite.id).Nodup)
    (hsecs : (s.invites.map Invite.secret).Nodup)
    (hnone : ∀ i ∈ s.invites, i.status ≠ .none)
    (htwo : 2 ≤
      (s.invites.filter (fun i => decide (i.status = .pending))).length)
    (hsel : getNextInvite s now = (Option.some p, s))
    (hclaim : (checkInviteOnChain (oracle p.signer)).claimed = true) :
    ∃ q, getInviteRoute s now oracle =
        (DispenseResponse.success q,
          updateInviteStatus s p.id .used now, 1) ∧
      q ∈ s.invites ∧ q.status = .pending ∧ q.id ≠ p.id ∧
      statusOf (updateInviteStatus s p.id .used now) p.id =
        Option.some .used ∧
      statusOf (updateInviteStatus s p.id .used now) q.id =
        Option.some .pending ∧
      (∀ j ∈ s.invites, j.status = .pending → j.id ≠ p.id →
        q.updateDate ≤ j.updateDate) := by
  have hselG := hsel
  -- characterize the selected invite p
  have hfn : s.invites.filter (fun i => decide (i.status = .none)) = [] := by
    rw [List.filter_eq_nil_iff]
    intro a ha
    simp [hnone a ha]
  have hm1 : minByKey (fun i => i.id)
      (s.invites.filter fun i => decide (i.status = .none)) =
      Option.none := by
    rw [hfn]
    rfl
  unfold getNextInvite at hsel
  simp only [hm1] at hsel
  rcases hminP : minByKey (fun i => i.updateDate)
      (s.invites.filter fun i => decide (i.status = .pending)) with _ | m
  · rw [hminP] at hsel
    simp at hsel
  rw [hminP] at hsel
  simp only [Prod.mk.injEq, Option.some.injEq] at hsel
  have hmp : m = p := hsel.1
  rw [hmp] at hminP
  have hmemP := minByKey_mem hminP
  rw [List.mem_filter] at hmemP
  have hpmem : p ∈ s.invites := hmemP.1
  have hpstat : p.status = .pending := by simpa using hmemP.2
  -- a second pending invite survives the mark-as-used update
  have hndinv : s.invites.Nodup := List.Nodup.of_map Invite.id hids
  have hfilterNodup :
      (s.invites.filter (fun i => decide (i.status = .pending))).Nodup :=
    hndinv.filter _
  obtain ⟨r, hrF, hrne⟩ := exists_second hfilterNodup
    (List.mem_filter.mpr ⟨hpmem, by simp [hpstat]⟩) htwo
  rw [List.mem_filter] at hrF
  have hrmem : r ∈ s.invites := hrF.1
  have hrpend : r.status = .pending := by simpa using hrF.2
  have hrid : r.id ≠ p.id := key_inj_of_nodup Invite.id hids hrmem hpmem hrne
  have hrs2 : r ∈ (updateInviteStatus s p.id .used now).invites :=
    mem_update_of_ne hrmem hrid
  have hneP2 : (updateInviteStatus s p.id .used now).invites.filter
      (fun i => decide (i.status = .pending)) ≠ [] := by
    intro h0
    have hmem : r ∈ (updateInviteStatus s p.id .used now).invites.filter
        (fun i => decide (i.status = .pending)) :=
      List.mem_filter.mpr ⟨hrs2, by simp [hrpend]⟩
    rw [h0] at hmem
    simp at hmem
  obtain ⟨q, hminQ⟩ :=
    @minByKey_isSome (fun i => i.updateDate) _ hneP2
  have hqF := minByKey_mem hminQ
  rw [List.mem_filter] at hqF
  have hqpend : q.status = .pending := by simpa using hqF.2
  obtain ⟨hqmem, hqid⟩ := mem_update_pending_src hqF.1 hqpend
  -- the second getNextInvite returns q and changes nothing
  have hnone2 := @none_free_update_used s p.id now hnone
  have hfn2 : (updateInviteStatus s p.id .used now).invites.filter
      (fun i => decide (i.status = .none)) = [] := by
    rw [List.filter_eq_nil_iff]
    intro a ha
    simp [hnone2 a ha]
  have hm12 : minByKey (fun i => i.id)
      ((updateInviteStatus s p.id .used now).invites.filter
        fun i => decide (i.status = .none)) = Option.none := by
    rw [hfn2]
    rfl
  have hgn2 : getNextInvite (updateInviteStatus s p.id .used now) now =
      (Option.some q, updateInviteStatus s p.id .used now) := by
    unfold getNextInvite
    simp only [hm12, hminQ]
  have hmark : markInviteAsUsed s p.secret now =
      (true, updateInviteStatus s p.id .used now) := by
    unfold markInviteAsUsed
    rw [getInviteBySecret_of_nodup hsecs hpmem]
  refine ⟨q, ?_, hqmem, hqpend, hqid, ?_, ?_, ?_⟩
  · unfold getInviteRoute getInviteFlow
    simp only [hselG]
    rw [if_pos hpstat, if_pos hclaim]
    simp only [hmark, hgn2]
  · unfold statusOf
    rw [getInviteById_update, getInviteById_of_nodup hids hpmem]
    simp
  · unfold statusOf
    rw [getInviteById_update, getInviteById_of_nodup hids hqmem]
    simp [hqid, hqpend]
  · intro j hj hjpend hjid
    have hjs2 : j ∈ (updateInviteStatus s p.id .used now).invites :=
      mem_update_of_ne hj hjid
    exact minByKey_le hminQ j (List.mem_filter.mpr ⟨hjs2, by simp [hjpend]⟩)

/-- Witness for the amended C2 on a two-pending store with an oracle
claiming everything. -/
theorem c2_amended_single_skip_witness :
    (((⟨[⟨1, "aa", "s1", .pending, 10⟩, ⟨2, "bb", "s2", .pending, 20⟩],
        3⟩ : Store).invites.map Invite.id).Nodup ∧
      ((⟨[⟨1, "aa", "s1", .pending, 10⟩, ⟨2, "bb", "s2", .pending, 20⟩],
        3⟩ : Store).invites.map Invite.secret).Nodup ∧
      (∀ i ∈ (⟨[⟨1, "aa", "s1", .pending, 10⟩,
          ⟨2, "bb", "s2", .pending, 20⟩], 3⟩ : Store).invites,
        i.status ≠ .none) ∧
      2 ≤ ((⟨[⟨1, "aa", "s1", .pending, 10⟩,
          ⟨2, "bb", "s2", .pending, 20⟩], 3⟩ : Store).invites.filter
            (fun i => decide (i.status = .pending))).length ∧
      getNextInvite
          ⟨[⟨1, "aa", "s1", .pending, 10⟩, ⟨2, "bb", "s2", .pending, 20⟩],
            3⟩ 100 =
        (Option.some ⟨1, "aa", "s1", .pending, 10⟩,
          ⟨[⟨1, "aa", "s1", .pending, 10⟩, ⟨2, "bb", "s2", .pending, 20⟩],
            3⟩) ∧
      (checkInviteOnChain ((fun _ : String => OracleOutcome.decoded "0xa" true)
          (⟨1, "aa", "s1", InviteStatus.pending, 10⟩ : Invite).signer)).claimed =
        true) ∧
    (∃ q, getInviteRoute
          ⟨[⟨1, "aa", "s1", .pending, 10⟩, ⟨2, "bb", "s2", .pending, 20⟩],
            3⟩ 100 (fun _ => OracleOutcome.decoded "0xa" true) =
        (DispenseResponse.success q,
          updateInviteStatus
            ⟨[⟨1, "aa", "s1", .pending, 10⟩, ⟨2, "bb", "s2", .pending, 20⟩],
              3⟩ 1 .used 100, 1) ∧
      q ∈ (⟨[⟨1, "aa", "s1", .pending, 10⟩, ⟨2, "bb", "s2", .pending, 20⟩],
          3⟩ : Store).invites ∧
      q.status = .pending ∧ q.id ≠ 1 ∧
      statusOf (updateInviteStatus
          ⟨[⟨1, "aa", "s1", .pending, 10⟩, ⟨2, "bb", "s2", .pending, 20⟩],
            3⟩ 1 .used 100) 1 = Option.some .used ∧
      statusOf (updateInviteStatus
          ⟨[⟨1, "aa", "s1", .pending, 10⟩, ⟨2, "bb", "s2", .pending, 20⟩],
            3⟩ 1 .used 100) q.id = Option.some .pending ∧
      (∀ j ∈ (⟨[⟨1, "aa", "s1", .pending, 10⟩,
          ⟨2, "bb", "s2", .pending, 20⟩], 3⟩ : Store).invites,
        j.status = .pending → j.id ≠ 1 → q.updateDate ≤ j.updateDate)) :=
  ⟨⟨by decide, by decide, by decide, by decide, by decide, by decide⟩,
    c2_amended_single_skip
      ⟨[⟨1, "aa", "s1", .pending, 10⟩, ⟨2, "bb", "s2", .pending, 20⟩], 3⟩
      100 (fun _ => OracleOutcome.decoded "0xa" true)
      ⟨1, "aa", "s1", .pending, 10⟩ (by decide) (by decide) (by decide)
      (by decide) (by decide) (by decide)⟩

end InvitationService
